import Mathlib

/-
Verification of the ProcessWatch repository (cui_main.py, process_attach.py).

The Python code is shallowly embedded: Python strings are lists of
characters, the mutable objects (Process, ProcessTable, SafetyProcessCall)
are structures threaded explicitly through each operation, and a raised
Python exception is an explicit `Option PyErr` (or `Except PyErr`) result
carried together with the state the operation had already mutated.
The operating-system side (the multiprocessing listener process and the
child it supervises) is modelled by a `World` holding the live listener
units; the listener polling loop `process_entry` is modelled separately as
a step function over an explicit event schedule.
-/

set_option autoImplicit false
set_option maxRecDepth 10000

namespace ProcessWatch

/-- Python strings are modelled as lists of characters. -/
abbrev PyStr := List Char

/-- Whitespace recognised by Python `str.strip()` and `float()`: the
characters for which `str.isspace()` holds, following CPython's Unicode
whitespace table (0x09-0x0d, 0x1c-0x1f, the space, 0x85, 0xa0, 0x1680,
0x2000-0x200a, the line and paragraph separators 0x2028 and 0x2029,
0x202f, 0x205f, and the ideographic space 0x3000). -/
def pyIsSpace (c : Char) : Bool :=
  c == ' ' || c == '\t' || c == '\n' || c == '\x0b' || c == '\x0c' ||
  c == '\r' || c == '\x1c' || c == '\x1d' || c == '\x1e' || c == '\x1f' ||
  c == '\x85' || c == '\xa0' || c == '\u1680' ||
  c == '\u2000' || c == '\u2001' || c == '\u2002' || c == '\u2003' ||
  c == '\u2004' || c == '\u2005' || c == '\u2006' || c == '\u2007' ||
  c == '\u2008' || c == '\u2009' || c == '\u200a' ||
  c == '\u2028' || c == '\u2029' || c == '\u202f' || c == '\u205f' ||
  c == '\u3000'

/-- Python `str.strip()`: drop leading and trailing whitespace. -/
def pyStrip (s : PyStr) : PyStr :=
  ((s.dropWhile pyIsSpace).reverse.dropWhile pyIsSpace).reverse

/-- Python `str.split(sep)` for a one-character separator `s0`
(used by the source as `config.strip().split("\n")` and
`mes.strip().split("\n")`).  `acc` is the current field, reversed. -/
def pySplit1 (s0 : Char) : List Char → List Char → List PyStr
  | [], acc => [acc.reverse]
  | c :: rest, acc =>
    if c = s0 then acc.reverse :: pySplit1 s0 rest []
    else pySplit1 s0 rest (c :: acc)

/-- Python `str.split(sep)` for a three-character separator `a b c`
(used by the source as `line.split(":::")`): left-to-right scan for the
first non-overlapping occurrence of the separator. -/
def pySplit3 (a b c : Char) : List Char → List Char → List PyStr
  | [], acc => [acc.reverse]
  | [x], acc => [(x :: acc).reverse]
  | [x, y], acc => [(y :: x :: acc).reverse]
  | x :: y :: z :: rest, acc =>
    if x = a ∧ y = b ∧ z = c then acc.reverse :: pySplit3 a b c rest []
    else pySplit3 a b c (y :: z :: rest) (x :: acc)

/-- `config.strip().split("\n")` / `mes.strip().split("\n")` helper. -/
def pySplitNl (s : PyStr) : List PyStr := pySplit1 '\n' s []

/-- `line.split(":::")` from `ProcessTable.load_config`. -/
def pySplitCols (s : PyStr) : List PyStr := pySplit3 ':' ':' ':' s []

/-- Python exceptions that the modelled code can raise. -/
inductive PyErr where
  /-- `raise ValueError(msg)` (also unpack and float-conversion failures). -/
  | valueError (msg : PyStr)
  /-- Attribute access on `None` (e.g. `None.kill()`). -/
  | attributeError (msg : PyStr)
  /-- `list[i]` with an out-of-range index. -/
  | indexError (msg : PyStr)
  deriving DecidableEq, Repr

/-- The `ValueError("Not started")` raised by `SafetyProcessCall`. -/
def errNotStarted : PyErr := .valueError (("Not started").data)

/-- The `AttributeError` raised by `self.proc.kill()` when `self.proc` is
`None` in `Process.kill`. -/
def errNoneKill : PyErr :=
  .attributeError (("NoneType object has no attribute kill").data)

/-- The `AttributeError` raised by `self.proc.readlines()` when `self.proc`
is `None` in `Process.refresh_status`. -/
def errNoneReadlines : PyErr :=
  .attributeError (("NoneType object has no attribute readlines").data)

/-- The `ValueError` raised by unpacking `line.split(":::")` into three
variables when the split does not have exactly three fields. -/
def errUnpack : PyErr := .valueError (("values to unpack").data)

/-- The `ValueError` raised by `float(x)` on a string that is not a float
literal. -/
def errFloat : PyErr :=
  .valueError (("could not convert string to float").data)

/-- The `IndexError` raised by `self.process_list[index]` out of range. -/
def errIndex : PyErr := .indexError (("list index out of range").data)

/-- `shlex` error for a dangling escape character. -/
def errNoEscape : PyErr := .valueError (("No escaped character").data)

/-- `shlex` error for an unterminated quoted string. -/
def errNoClosing : PyErr := .valueError (("No closing quotation").data)

/-- A Python decimal digit. -/
def pyIsDigit (c : Char) : Bool := '0' ≤ c && c ≤ '9'

/-- Consume a maximal run of digits, returning how many were consumed and
the remainder. -/
def spanDigits : List Char → Nat × List Char
  | [] => (0, [])
  | c :: rest =>
    if pyIsDigit c then
      let (n, r) := spanDigits rest
      (n + 1, r)
    else (0, c :: rest)

/-- Strip one optional leading sign (for `float()` parsing). -/
def dropSign : List Char → List Char
  | '+' :: r => r
  | '-' :: r => r
  | r => r

/-- Exponent-and-end check of a Python float literal: empty, or
`e`/`E` followed by an optionally signed nonempty digit run. -/
def pyExpTail : List Char → Bool
  | [] => true
  | 'e' :: r => (spanDigits (dropSign r)).1 > 0 && (spanDigits (dropSign r)).2 = []
  | 'E' :: r => (spanDigits (dropSign r)).1 > 0 && (spanDigits (dropSign r)).2 = []
  | _ => false

/-- Mantissa-and-exponent body of a Python float literal:
`digits [. digits] [exp]` or `. digits [exp]`, with at least one digit. -/
def pyFloatBody (t : List Char) : Bool :=
  let (d1, r1) := spanDigits t
  match r1 with
  | '.' :: r2 =>
    let (d2, r3) := spanDigits r2
    (d1 + d2 > 0) && pyExpTail r3
  | r => d1 > 0 && pyExpTail r

/-- Case-insensitive ASCII comparison against a lowercase pattern. -/
def lowerEq : List Char → List Char → Bool
  | [], [] => true
  | c :: r, p :: q => (c == p || c.toLower == p) && lowerEq r q
  | _, _ => false

/-- Python `float(s)` succeeds on the string `s`: optional surrounding
whitespace, optional sign, then a float literal or `inf`/`infinity`/`nan`
(case-insensitive).  Models the conversion in
`time.sleep(float(self.delay))` from `Process.start`. -/
def pyFloatParses (s : PyStr) : Bool :=
  let t := dropSign (pyStrip s)
  lowerEq t (("inf").data) || lowerEq t (("infinity").data) ||
    lowerEq t (("nan").data) || pyFloatBody t

/-- A command specification as held by `Process.commands`: either a single
shell string or a list of argument strings. -/
inductive PyCmd where
  | ofStr (s : PyStr)
  | ofList (l : List PyStr)
  deriving DecidableEq, Repr

/-- A start delay as held by `Process.delay`: a Python float (identified by
its `repr`, the only way the code ever consumes it besides the
parsability check in `float()`) or a string (as produced by
`load_config`). -/
inductive PyDelay where
  | ofFloat (r : PyStr)
  | ofStr (s : PyStr)
  deriving DecidableEq, Repr

/-- One escaped character of Python `repr` of a string. -/
def pyReprEsc (q : Char) (c : Char) : List Char :=
  if c = '\\' then ['\\', '\\']
  else if c = q then ['\\', q]
  else if c = '\n' then ['\\', 'n']
  else if c = '\r' then ['\\', 'r']
  else if c = '\t' then ['\\', 't']
  else [c]

/-- Escape every character of a string for `repr`. -/
def pyReprEscAll (q : Char) : List Char → List Char
  | [] => []
  | c :: rest => pyReprEsc q c ++ pyReprEscAll q rest

/-- Python `repr` of a string: single quotes unless the string contains a
single quote and no double quote. -/
def pyReprStr (s : PyStr) : PyStr :=
  let q : Char := if s.contains '\'' && !(s.contains '"') then '"' else '\''
  q :: pyReprEscAll q s ++ [q]

/-- Comma-separated `repr` items of a Python list display. -/
def pyReprItems : List PyStr → PyStr
  | [] => []
  | [x] => pyReprStr x
  | x :: rest => pyReprStr x ++ ',' :: ' ' :: pyReprItems rest

/-- Python `str()` of a command specification, as interpolated by the
f-string in `ProcessTable.save_config`: a string stays itself, a list
becomes its Python list display `['a', 'b']`. -/
def pyStrOfCmd : PyCmd → PyStr
  | .ofStr s => s
  | .ofList l => '[' :: pyReprItems l ++ [']']

/-- Python `str()` of a delay (`str(proc.delay)` in `save_config`). -/
def pyStrOfDelay : PyDelay → PyStr
  | .ofFloat r => r
  | .ofStr s => s

/-- `float(delay)` succeeds: always for a genuine float, and for a string
exactly when it parses as a Python float literal. -/
def pyFloatOk : PyDelay → Bool
  | .ofFloat _ => true
  | .ofStr s => pyFloatParses s

/-- Lexer mode of `shlex` in POSIX mode: outside quotes, inside single
quotes, inside double quotes. -/
inductive ShMode where
  | norm
  | insingle
  | indouble
  deriving DecidableEq, Repr

/-- Whitespace that separates `shlex` tokens. -/
def shWs (c : Char) : Bool := c == ' ' || c == '\t' || c == '\r' || c == '\n'

/-- Core of Python `shlex.split` (POSIX rules, no comments): `fuel` bounds
the scan (always called with more fuel than characters), `cur` is the
token being built (reversed) and `inTok` records whether a token is in
progress (so that quoted empty strings produce empty tokens). -/
def shlexAux : Nat → ShMode → List Char → List Char → Bool →
    Except PyErr (List PyStr)
  | 0, _, _, _, _ => .error errNoClosing
  | _ + 1, .norm, [], cur, inTok =>
    .ok (if inTok then [cur.reverse] else [])
  | fuel + 1, .norm, c :: rest, cur, inTok =>
    if shWs c then
      if inTok then (shlexAux fuel .norm rest [] false).map (cur.reverse :: ·)
      else shlexAux fuel .norm rest [] false
    else if c = '\'' then shlexAux fuel .insingle rest cur true
    else if c = '"' then shlexAux fuel .indouble rest cur true
    else if c = '\\' then
      match rest with
      | [] => .error errNoEscape
      | d :: rest2 => shlexAux fuel .norm rest2 (d :: cur) true
    else shlexAux fuel .norm rest (c :: cur) true
  | _ + 1, .insingle, [], _, _ => .error errNoClosing
  | fuel + 1, .insingle, c :: rest, cur, _ =>
    if c = '\'' then shlexAux fuel .norm rest cur true
    else shlexAux fuel .insingle rest (c :: cur) true
  | _ + 1, .indouble, [], _, _ => .error errNoClosing
  | fuel + 1, .indouble, c :: rest, cur, _ =>
    if c = '"' then shlexAux fuel .norm rest cur true
    else if c = '\\' then
      match rest with
      | [] => .error errNoEscape
      | d :: rest2 =>
        if d = '"' ∨ d = '\\' then shlexAux fuel .indouble rest2 (d :: cur) true
        else shlexAux fuel .indouble rest2 (d :: '\\' :: cur) true
    else shlexAux fuel .indouble rest (c :: cur) true

/-- Python `shlex.split(s)`, as called by `SafetyProcessCall.__init__` when
given a string command. -/
def shlexSplit (s : PyStr) : Except PyErr (List PyStr) :=
  shlexAux (s.length + 1) .norm s [] false

/-- `SafetyProcessCall.__init__` succeeds on this command specification
(string tokenization can raise on unbalanced quoting). -/
def cmdOk (c : PyCmd) : Bool :=
  match c with
  | .ofStr s => match shlexSplit s with | .ok _ => true | .error _ => false
  | .ofList _ => true

/-- The argument list stored by a `SafetyProcessCall` (default junk on a
tokenization error, which the operations never reach). -/
def shlexArgsD (s : PyStr) : List PyStr :=
  match shlexSplit s with
  | .ok a => a
  | .error _ => []

/-!  ## The operating-system world

Each `SafetyProcessCall.start` launches one `multiprocessing.Process`
running `ProcessListener.process_entry`, which in turn owns one child
(`Popen`) process.  A world records the live listener units as pairs
`(listener id, child currently alive)`.  When the listener terminates —
and `process_entry` unconditionally kills and reaps its child on every
exit path — the unit disappears from the world. -/

structure World where
  nextId : Nat
  units : List (Nat × Bool)
  deriving DecidableEq, Repr

/-- Spawn a listener process (with its freshly spawned child). -/
def spawnListener (w : World) : Nat × World :=
  (w.nextId, ⟨w.nextId + 1, (w.nextId, true) :: w.units⟩)

/-- Deliver the kill message and join the listener: by the time `join`
returns, `process_entry` has finished, having killed and reaped its child
(`proc.kill()` runs on every exit path of `process_entry`), so the whole
unit is gone. -/
def killListener (w : World) (id : Nat) : World :=
  ⟨w.nextId, w.units.filter (fun u => u.1 ≠ id)⟩

/-- The listener process `id` is alive (`multiprocessing.Process.is_alive`). -/
def listenerAlive (w : World) (id : Nat) : Bool :=
  w.units.any (fun u => u.1 = id)

/-- The child process owned by listener `id` is alive. -/
def childAliveB (w : World) (id : Nat) : Bool :=
  w.units.any (fun u => u.1 = id ∧ u.2 = true)

/-!  ## SafetyProcessCall (process_attach.py) -/

/-- State of a `SafetyProcessCall` object: the tokenized command, the
optional listener-process handle, and the three queues (contents listed
oldest first). -/
structure SPC where
  processArgs : List PyStr
  proc : Option Nat
  qstdout : List PyStr
  qstderr : List PyStr
  qkill : List PyStr
  deriving DecidableEq, Repr

/-- `SafetyProcessCall.__init__`: tokenize a string command with
`shlex.split`, keep a list command as is; no process handle yet. -/
def spcInit (c : PyCmd) : Except PyErr SPC :=
  match c with
  | .ofStr s => (shlexSplit s).map (fun args => ⟨args, none, [], [], []⟩)
  | .ofList l => .ok ⟨l, none, [], [], []⟩

/-- `SafetyProcessCall.kill`: raises `ValueError("Not started")` when no
process is associated; otherwise puts the kill message, joins the
listener (which kills and reaps the child), closes handle and queues, and
disassociates. -/
def spcKill (s : SPC) (w : World) : SPC × World × Option PyErr :=
  match s.proc with
  | none => (s, w, some errNotStarted)
  | some id =>
    ({ s with qkill := s.qkill ++ [("kill").data], proc := none },
     killListener w id, none)

/-- Spawn the fresh queues and listener process of
`SafetyProcessCall.start`. -/
def spcSpawn (s : SPC) (w : World) : SPC × World × Option PyErr :=
  let (id, w') := spawnListener w
  ({ s with qstdout := [], qstderr := [], qkill := [], proc := some id },
   w', none)

/-- `SafetyProcessCall.start`: kill first when a process is already
associated, then create fresh queues and spawn the listener. -/
def spcStart (s : SPC) (w : World) : SPC × World × Option PyErr :=
  match s.proc with
  | some _ =>
    match spcKill s w with
    | (s1, w1, some e) => (s1, w1, some e)
    | (s1, w1, none) => spcSpawn s1 w1
  | none => spcSpawn s w

/-- `SafetyProcessCall.is_alive`: `False` when no process is associated,
otherwise the liveness of the listener process. -/
def spcIsAlive (s : SPC) (w : World) : Bool :=
  match s.proc with
  | none => false
  | some id => listenerAlive w id

/-- `SafetyProcessCall.readlines`: raises `ValueError("Not started")` when
no process is associated; otherwise pops one message from the stdout
queue, or returns `None` when the queue is empty. -/
def spcReadlines (s : SPC) : SPC × Except PyErr (Option PyStr) :=
  match s.proc with
  | none => (s, .error errNotStarted)
  | some _ =>
    match s.qstdout with
    | [] => (s, .ok none)
    | m :: rest => ({ s with qstdout := rest }, .ok (some m))

/-- `SafetyProcessCall.readlines_stderr`: same for the stderr queue. -/
def spcReadlinesErr (s : SPC) : SPC × Except PyErr (Option PyStr) :=
  match s.proc with
  | none => (s, .error errNotStarted)
  | some _ =>
    match s.qstderr with
    | [] => (s, .ok none)
    | m :: rest => ({ s with qstderr := rest }, .ok (some m))

/-!  ## Process (cui_main.py) -/

/-- Status string `"Run"`. -/
def strRun : PyStr := ("Run").data

/-- Status string `"Stop"`. -/
def strStop : PyStr := ("Stop").data

/-- State of a `Process` object from cui_main.py. -/
structure Proc where
  name : PyStr
  commands : PyCmd
  delay : PyDelay
  result : List PyStr
  status : PyStr
  proc : Option SPC
  deriving DecidableEq, Repr

/-- `Process.__init__`. -/
def procInit (name : PyStr) (commands : PyCmd) (delay : PyDelay) : Proc :=
  ⟨name, commands, delay, [], strStop, none⟩

instance : Inhabited Proc := ⟨procInit [] (.ofList []) (.ofFloat [])⟩

/-- `Process.kill`: calls `self.proc.kill()` with no `None` guard, so an
entry with no associated handle raises `AttributeError`; on success the
handle is dropped and the status set to `"Stop"`. -/
def procKill (p : Proc) (w : World) : Proc × World × Option PyErr :=
  match p.proc with
  | none => (p, w, some errNoneKill)
  | some spc =>
    match spcKill spc w with
    | (spc1, w1, some e) => ({ p with proc := some spc1 }, w1, some e)
    | (_, w1, none) => ({ p with proc := none, status := strStop }, w1, none)

/-- `Process.start`: kill the previous instance when one is associated,
construct and start a fresh `SafetyProcessCall`, set the status to
`"Run"`, then evaluate `float(self.delay)` for the settle sleep (which
raises after the state was already mutated when the delay string is not a
float). -/
def procStart (p : Proc) (w : World) : Proc × World × Option PyErr :=
  match (match p.proc with
         | some _ => procKill p w
         | none => (p, w, none)) with
  | (p1, w1, some e) => (p1, w1, some e)
  | (p1, w1, none) =>
    match spcInit p1.commands with
    | .error e => (p1, w1, some e)
    | .ok spc0 =>
      match spcStart spc0 w1 with
      | (spc1, w2, some e) => ({ p1 with proc := some spc1 }, w2, some e)
      | (spc1, w2, none) =>
        let p2 := { p1 with proc := some spc1, status := strRun }
        if pyFloatOk p2.delay then (p2, w2, none) else (p2, w2, some errFloat)

/-- `Process.refresh_status`: reevaluate the status (an entry with no
associated handle becomes `"Stop"`), then unconditionally call
`self.proc.readlines()` and `self.proc.readlines_stderr()` — which is an
`AttributeError` on `None` when no handle is associated — and append the
stripped, newline-split messages to `self.result`. -/
def procRefresh (p : Proc) (w : World) : Proc × Option PyErr :=
  let p1 :=
    match p.proc with
    | none => { p with status := strStop }
    | some spc =>
      { p with status := if spcIsAlive spc w then strRun else strStop }
  match p1.proc with
  | none => (p1, some errNoneReadlines)
  | some spc =>
    match spcReadlines spc with
    | (spc1, .error e) => ({ p1 with proc := some spc1 }, some e)
    | (spc1, .ok mes) =>
      let lines1 :=
        match mes with
        | none => []
        | some m => pySplitNl (pyStrip m)
      let p2 := { p1 with proc := some spc1, result := p1.result ++ lines1 }
      match spcReadlinesErr spc1 with
      | (spc2, .error e) => ({ p2 with proc := some spc2 }, some e)
      | (spc2, .ok mes2) =>
        let lines2 :=
          match mes2 with
          | none => []
          | some m => pySplitNl (pyStrip m)
        ({ p2 with proc := some spc2, result := p2.result ++ lines2 }, none)

/-!  ## ProcessTable (cui_main.py) -/

/-- Resolve a Python list index: `0 <= i < n` addresses directly, negative
`i` with `-n <= i` addresses from the end, anything else is an
`IndexError`. -/
def pyIdx (n : Nat) (i : Int) : Option Nat :=
  if 0 ≤ i ∧ i < (n : Int) then some i.toNat
  else if -(n : Int) ≤ i ∧ i < 0 then some ((n : Int) + i).toNat
  else none

/-- The in-range condition of a Python list index. -/
def pyInBounds (n : Nat) (i : Int) : Prop := -(n : Int) ≤ i ∧ i < (n : Int)

instance (n : Nat) (i : Int) : Decidable (pyInBounds n i) := by
  unfold pyInBounds; infer_instance

/-- `ProcessTable.add`: construct a `Process`, start it, and append it —
the append happens only when `start` returned normally. -/
def tableAdd (tb : List Proc) (w : World) (name : PyStr) (commands : PyCmd)
    (delay : PyDelay) : List Proc × World × Option PyErr :=
  match procStart (procInit name commands delay) w with
  | (p1, w1, none) => (tb ++ [p1], w1, none)
  | (_, w1, some e) => (tb, w1, some e)

/-- `ProcessTable.restart`: `self.process_list[index].start()`. -/
def tableRestart (tb : List Proc) (w : World) (i : Int) :
    List Proc × World × Option PyErr :=
  match pyIdx tb.length i with
  | none => (tb, w, some errIndex)
  | some k =>
    match procStart (tb.getD k default) w with
    | (p1, w1, e) => (tb.set k p1, w1, e)

/-- `ProcessTable.kill`: `self.process_list[index].kill()`. -/
def tableKill (tb : List Proc) (w : World) (i : Int) :
    List Proc × World × Option PyErr :=
  match pyIdx tb.length i with
  | none => (tb, w, some errIndex)
  | some k =>
    match procKill (tb.getD k default) w with
    | (p1, w1, e) => (tb.set k p1, w1, e)

/-- `ProcessTable.refresh`: `self.process_list[index].refresh_status()`. -/
def tableRefresh (tb : List Proc) (w : World) (i : Int) :
    List Proc × Option PyErr :=
  match pyIdx tb.length i with
  | none => (tb, some errIndex)
  | some k =>
    match procRefresh (tb.getD k default) w with
    | (p1, e) => (tb.set k p1, e)

/-- `ProcessTable.delete`: kill entry `index`, then pop it (the pop is
reached only when the kill returned normally). -/
def tableDelete (tb : List Proc) (w : World) (i : Int) :
    List Proc × World × Option PyErr :=
  match pyIdx tb.length i with
  | none => (tb, w, some errIndex)
  | some k =>
    match procKill (tb.getD k default) w with
    | (p1, w1, some e) => (tb.set k p1, w1, some e)
    | (p1, w1, none) => ((tb.set k p1).eraseIdx k, w1, none)

/-- `ProcessTable.kill_all`: `proc.kill()` on every entry in order; an
exception aborts the remaining entries but keeps the mutations made so
far. -/
def tableKillAll (tb : List Proc) (w : World) :
    List Proc × World × Option PyErr :=
  match tb with
  | [] => ([], w, none)
  | p :: rest =>
    match procKill p w with
    | (p1, w1, some e) => (p1 :: rest, w1, some e)
    | (p1, w1, none) =>
      match tableKillAll rest w1 with
      | (rest1, w2, r) => (p1 :: rest1, w2, r)

/-- `ProcessTable.delete_all`: `kill_all` then clear the list (the clear is
reached only when `kill_all` returned normally). -/
def tableDeleteAll (tb : List Proc) (w : World) :
    List Proc × World × Option PyErr :=
  match tableKillAll tb w with
  | (tb1, w1, some e) => (tb1, w1, some e)
  | (_, w1, none) => ([], w1, none)

/-- Decimal digits of a natural number (`fuel` bounds the recursion and is
always ample). -/
def natDigitsAux : Nat → Nat → List Char
  | 0, _ => []
  | fuel + 1, n =>
    if n < 10 then [Char.ofNat (48 + n)]
    else natDigitsAux fuel (n / 10) ++ [Char.ofNat (48 + n % 10)]

/-- Python `str()` of an integer. -/
def intRepr (i : Int) : PyStr :=
  if i < 0 then '-' :: natDigitsAux (i.natAbs + 1) i.natAbs
  else natDigitsAux (i.toNat + 1) i.toNat

/-- Right-align in a field of `width` (f-string `{n:5}` for numbers). -/
def padNum (width : Nat) (s : PyStr) : PyStr :=
  List.replicate (width - s.length) ' ' ++ s

/-- Left-align in a field of `width` (f-string `{s:6}` for strings). -/
def padStr (width : Nat) (s : PyStr) : PyStr :=
  s ++ List.replicate (width - s.length) ' '

/-- The f-string of `ProcessTable.get_status`: id, status, name truncated
to 20 characters, and the most recent result line. -/
def statusLine (idx : Int) (p : Proc) : PyStr :=
  ("id: ").data ++ padNum 5 (intRepr idx) ++
  (" | status: ").data ++ padStr 6 p.status ++
  (" | com: ").data ++ padStr 20 (p.name.take 20) ++
  (" | res: ").data ++
  (match p.result.getLast? with
   | none => []
   | some r => r)

/-- `ProcessTable.get_status`: index, then format. -/
def tableGetStatus (tb : List Proc) (i : Int) : Except PyErr PyStr :=
  match pyIdx tb.length i with
  | none => .error errIndex
  | some k => .ok (statusLine i (tb.getD k default))

/-- The line written for one entry by `ProcessTable.save_config`:
`f"{proc.name}:::{proc.commands}:::{str(proc.delay)}\n"`. -/
def saveLine (p : Proc) : PyStr :=
  p.name ++ ':' :: ':' :: ':' :: pyStrOfCmd p.commands ++
    ':' :: ':' :: ':' :: pyStrOfDelay p.delay ++ ['\n']

/-- `ProcessTable.save_config`: concatenate one line per entry (the file
write is modelled as returning the written text). -/
def saveConfig : List Proc → PyStr
  | [] => []
  | p :: rest => saveLine p ++ saveConfig rest

/-- The loop of `ProcessTable.load_config`: split each line on `":::"`,
raise the unpack `ValueError` unless there are exactly three fields, and
`add` the entry (commands and delay arrive as strings).  An exception
aborts the remaining lines but keeps the entries added so far. -/
def loadLoop (lines : List PyStr) (tb : List Proc) (w : World) :
    List Proc × World × Option PyErr :=
  match lines with
  | [] => (tb, w, none)
  | line :: rest =>
    match pySplitCols line with
    | [name, commands, delay] =>
      match tableAdd tb w name (.ofStr commands) (.ofStr delay) with
      | (tb1, w1, none) => loadLoop rest tb1 w1
      | (tb1, w1, some e) => (tb1, w1, some e)
    | _ => (tb, w, some errUnpack)

/-- `ProcessTable.load_config` on the given config text: tear down the
current registry with `delete_all`, then add one entry per
newline-separated line of the stripped text. -/
def loadConfig (config : PyStr) (tb : List Proc) (w : World) :
    List Proc × World × Option PyErr :=
  match tableDeleteAll tb w with
  | (tb1, w1, some e) => (tb1, w1, some e)
  | (tb1, w1, none) => loadLoop (pySplitNl (pyStrip config)) tb1 w1

/-!  ## ProcessListener.process_entry (process_attach.py)

The supervision loop runs in its own process, concurrently with the two
reader threads, the child, and the controller.  It is modelled as a step
function driven by an explicit schedule: before each loop iteration an
arbitrary batch of environment events (child emits a line, a reader
thread moves one line from the pipe into the shared buffer, the child
exits, the controller puts the kill message) is applied, then one
iteration of the `for` body runs.  Lines are whole (`readline` returns
complete lines), so the string buffers are modelled as lists of lines. -/

/-- State visible to `process_entry`: the child, its two pipes, the two
reader-thread buffers (`stdoutString`/`stderrString`), the two outgoing
queues (each entry one drained chunk), the kill queue, and ghost lists of
every line the child ever emitted. -/
structure LState where
  childAlive : Bool
  pipeOut : List PyStr
  pipeErr : List PyStr
  bufOut : List PyStr
  bufErr : List PyStr
  qstdout : List (List PyStr)
  qstderr : List (List PyStr)
  qkill : Bool
  emittedOut : List PyStr
  emittedErr : List PyStr
  deriving DecidableEq, Repr

/-- Environment events interleaved with the polling loop. -/
inductive LEvent where
  /-- The child writes one line to stdout (only while alive). -/
  | emitOut (l : PyStr)
  /-- The child writes one line to stderr (only while alive). -/
  | emitErr (l : PyStr)
  /-- The stdout reader thread moves one line from the pipe to the buffer. -/
  | readOut
  /-- The stderr reader thread moves one line from the pipe to the buffer. -/
  | readErr
  /-- The child exits on its own. -/
  | childExit
  /-- The controller puts the kill message on the kill queue. -/
  | putKill
  deriving DecidableEq, Repr

/-- One environment event. -/
def lStep (st : LState) (e : LEvent) : LState :=
  match e with
  | .emitOut l =>
    if st.childAlive then
      { st with pipeOut := st.pipeOut ++ [l], emittedOut := st.emittedOut ++ [l] }
    else st
  | .emitErr l =>
    if st.childAlive then
      { st with pipeErr := st.pipeErr ++ [l], emittedErr := st.emittedErr ++ [l] }
    else st
  | .readOut =>
    match st.pipeOut with
    | [] => st
    | l :: rest => { st with pipeOut := rest, bufOut := st.bufOut ++ [l] }
  | .readErr =>
    match st.pipeErr with
    | [] => st
    | l :: rest => { st with pipeErr := rest, bufErr := st.bufErr ++ [l] }
  | .childExit => { st with childAlive := false }
  | .putKill => { st with qkill := true }

/-- `if len(proc.stdoutString) > 0: qstdout.put(...); proc.stdoutString = ""`. -/
def lDrainOut (st : LState) : LState :=
  if st.bufOut.isEmpty then st
  else { st with qstdout := st.qstdout ++ [st.bufOut], bufOut := [] }

/-- `if len(proc.stderrString) > 0: qstderr.put(...); proc.stderrString = ""`. -/
def lDrainErr (st : LState) : LState :=
  if st.bufErr.isEmpty then st
  else { st with qstderr := st.qstderr ++ [st.bufErr], bufErr := [] }

/-- One iteration of the `for` body of `process_entry`: drain both buffers
into the queues under the lock, then break when the kill message is
present or the child is no longer alive.  The returned flag is `true`
when the loop breaks. -/
def lIter (st : LState) : LState × Bool :=
  let st2 := lDrainErr (lDrainOut st)
  if st2.qkill then (st2, true)
  else if !st2.childAlive then (st2, true)
  else (st2, false)

/-- `proc.kill()` at the end of `process_entry`: `ProcessListener.kill`
sends the kill signal and waits, so the child is dead and reaped. -/
def lKill (st : LState) : LState := { st with childAlive := false }

/-- `process_entry` after `proc.start()`: at most `fuel` (= 1000) polling
iterations, each preceded by its batch of scheduled environment events;
the child is killed on every exit path.  Also returns the number of
iterations executed. -/
def processEntry : Nat → List (List LEvent) → LState → LState × Nat
  | 0, _, st => (lKill st, 0)
  | fuel + 1, sched, st =>
    let st0 := (sched.headD []).foldl lStep st
    match lIter st0 with
    | (st1, true) => (lKill st1, 1)
    | (st1, false) =>
      match processEntry fuel sched.tail st1 with
      | (stf, n) => (stf, n + 1)

/-- The state right after `ProcessListener.start`: child alive, everything
empty. -/
def lInit : LState := ⟨true, [], [], [], [], [], [], false, [], []⟩

/-- Queue contents flattened to the delivered lines, oldest first. -/
def flatQ : List (List PyStr) → List PyStr
  | [] => []
  | q :: rest => q ++ flatQ rest

/-- Number of live child processes associated with a `Process` (through
its `SafetyProcessCall` handle). -/
def assocLiveCount (p : Proc) (w : World) : Nat :=
  match p.proc with
  | none => 0
  | some spc =>
    match spc.proc with
    | none => 0
    | some id => if childAliveB w id then 1 else 0

/-- Conservation invariant of the listener loop: the lines delivered to
each queue, followed by the lines sitting in the thread buffer and the
lines sitting in the pipe, are exactly the lines the child has emitted,
in order. -/
def lConserved (st : LState) : Prop :=
  flatQ st.qstdout ++ st.bufOut ++ st.pipeOut = st.emittedOut ∧
  flatQ st.qstderr ++ st.bufErr ++ st.pipeErr = st.emittedErr

/-- Wellformedness of an entry used by the index-bounds theorem: a
process handle is associated (with a live listener handle inside), the
delay converts with `float()`, and the command tokenizes. -/
def entryOK (p : Proc) : Bool :=
  (match p.proc with
   | some spc => spc.proc.isSome
   | none => false) && pyFloatOk p.delay && cmdOk p.commands

/-- An `Except` result is a normal return. -/
def exceptOk {α : Type} : Except PyErr α → Bool
  | .ok _ => true
  | .error _ => false

/-- The body of a saved config line, without the trailing newline. -/
def saveBody (p : Proc) : PyStr :=
  p.name ++ ':' :: ':' :: ':' :: pyStrOfCmd p.commands ++
    ':' :: ':' :: ':' :: pyStrOfDelay p.delay

/-- Join strings with single newline separators (the shape of a stripped
saved config). -/
def joinNl : List PyStr → PyStr
  | [] => []
  | [b] => b
  | b :: rest => b ++ '\n' :: joinNl rest

/-- The entry `load_config` appends for a wellformed line when the next
fresh listener id is `id`. -/
def mkLoaded (id : Nat) (line : PyStr) : Proc :=
  match pySplitCols line with
  | [n, c, d] =>
    ⟨n, .ofStr c, .ofStr d, [], strRun,
      some ⟨shlexArgsD c, some id, [], [], []⟩⟩
  | _ => default

/-- The entries produced by loading a list of wellformed lines, fresh
listener ids starting at `id`. -/
def buildEntries (id : Nat) : List PyStr → List Proc
  | [] => []
  | line :: rest => mkLoaded id line :: buildEntries (id + 1) rest

/-- A config line loads without an exception: exactly three `":::"`-split
fields, a command field that tokenizes, a delay field that `float()`
accepts. -/
def lineOK (line : PyStr) : Bool :=
  match pySplitCols line with
  | [_, c, d] => cmdOk (.ofStr c) && pyFloatParses d
  | _ => false

/-- A field suitable for the `":::"`-and-newline config format: free of
colons and newlines. -/
def fieldOK (s : PyStr) : Bool := s.all (fun ch => ch != ':' && ch != '\n')

/-- Round-trip side conditions on one entry: a string command, all three
saved fields free of colons and newlines, and a command/delay that load
back without an exception. -/
def entRT (p : Proc) : Bool :=
  (match p.commands with
   | .ofStr c => fieldOK c && cmdOk (.ofStr c)
   | .ofList _ => false) &&
  fieldOK p.name && fieldOK (pyStrOfDelay p.delay) &&
  pyFloatParses (pyStrOfDelay p.delay)

/-- The first character (if any) is not Python whitespace. -/
def headNotSpace (s : PyStr) : Bool :=
  match s with
  | [] => true
  | c :: _ => !pyIsSpace c

/-- The last character (if any) is not Python whitespace. -/
def lastNotSpace (s : PyStr) : Bool := headNotSpace s.reverse

/-- A sample running entry (used by concrete instantiations): command is
an empty argument list, listener handle 0. -/
def sampleEnt0 : Proc :=
  ⟨("a").data, .ofList [], .ofFloat (("0.0").data), [], strRun,
    some ⟨[], some 0, [], [], []⟩⟩

/-- A second sample running entry with listener handle 1. -/
def sampleEnt1 : Proc :=
  ⟨("b").data, .ofList [], .ofFloat (("0.0").data), [], strRun,
    some ⟨[], some 1, [], [], []⟩⟩

/-- A world with the two sample listeners alive. -/
def sampleW2 : World := ⟨2, [(0, true), (1, true)]⟩

/-!  ## Helper lemmas -/

theorem spcInit_ok_of_cmdOk (c : PyCmd) (h : cmdOk c = true) :
    ∃ args, spcInit c = .ok ⟨args, none, [], [], []⟩ := by
  cases c with
  | ofStr s =>
    simp only [cmdOk] at h
    cases hs : shlexSplit s with
    | ok a => exact ⟨a, by simp [spcInit, hs, Except.map]⟩
    | error e => rw [hs] at h; simp at h
  | ofList l => exact ⟨l, rfl⟩

theorem listenerAlive_killListener (w : World) (id : Nat) :
    listenerAlive (killListener w id) id = false := by
  simp only [listenerAlive, killListener]
  rw [List.any_eq_false]
  intro u hu
  have h2 := (List.mem_filter.mp hu).2
  simp only [decide_eq_true_eq] at h2
  simp [h2]

theorem assocLiveCount_le_one (p : Proc) (w : World) :
    assocLiveCount p w ≤ 1 := by
  rcases hp : p.proc with _ | spc
  · simp [assocLiveCount, hp]
  · rcases hs : spc.proc with _ | id
    · simp [assocLiveCount, hp, hs]
    · simp only [assocLiveCount, hp, hs]
      split <;> omega

/-!  ## C1. Kill tolerance split between paths -/

/-- C1, corrected: the registry bulk kill does NOT tolerate already-stopped
entries — whenever some entry has no process associated, `kill_all`
raises — while `kill` on a single never-started `SafetyProcessCall`
raises the not-started `ValueError`. -/
theorem c1_kill_tolerance (tb : List Proc) (w : World) (s : SPC)
    (hstopped : ∃ p ∈ tb, p.proc = none) (hnever : s.proc = none) :
    (tableKillAll tb w).2.2 ≠ none ∧
    spcKill s w = (s, w, some errNotStarted) := by
  constructor
  · induction tb generalizing w with
    | nil => simp at hstopped
    | cons p rest ih =>
      rcases hstopped with ⟨q, hq, hqnone⟩
      rcases List.mem_cons.mp hq with rfl | hqr
      · simp only [tableKillAll, procKill, hqnone]
        simp
      · simp only [tableKillAll]
        rcases hk : procKill p w with ⟨p1, w1, e⟩
        cases e with
        | some e0 => simp
        | none =>
          rcases hr : tableKillAll rest w1 with ⟨rest1, w2, r⟩
          have := ih w1 ⟨q, hqr, hqnone⟩
          rw [hr] at this
          simpa [hr] using this
  · simp [spcKill, hnever]

/-- C1 counterexample: a registry with a single already-stopped entry
(`proc is None`): `kill_all` raises the `AttributeError` coming from
`None.kill()`, contradicting the claim that the bulk path never raises. -/
theorem c1_counterexample :
    (tableKillAll
      [procInit (("a").data) (.ofList []) (.ofFloat (("0.0").data))]
      ⟨0, []⟩).2.2 = some errNoneKill := by
  rfl

/-- C1 witness. -/
theorem c1_witness :
    (∃ p ∈ [procInit (("a").data) (.ofList []) (.ofFloat (("0.0").data))],
        p.proc = none) ∧
    ((⟨[], none, [], [], []⟩ : SPC).proc = none) ∧
    (tableKillAll
      [procInit (("a").data) (.ofList []) (.ofFloat (("0.0").data))]
      ⟨0, []⟩).2.2 ≠ none ∧
    spcKill ⟨[], none, [], [], []⟩ ⟨0, []⟩ =
      (⟨[], none, [], [], []⟩, ⟨0, []⟩, some errNotStarted) := by
  refine ⟨⟨_, List.mem_singleton.mpr rfl, rfl⟩, rfl, ?_⟩
  exact c1_kill_tolerance _ ⟨0, []⟩ _ ⟨_, List.mem_singleton.mpr rfl, rfl⟩ rfl

/-!  ## C2. refresh on an entry with no associated process -/

/-- C2, code bug: `refresh_status` on a `Process` whose `proc` is `None`
does set the status to `"Stop"` (the claim's and the code's own intent),
but then unconditionally dereferences `self.proc.readlines()` and raises
`AttributeError` instead of returning normally.  When a process IS
associated, refresh behaves as claimed: it pops the pending message of
each stream and appends the stripped newline-split lines to the output
history. -/
theorem c2_refresh_stopped_raises :
    (procRefresh
      { procInit (("a").data) (.ofList []) (.ofFloat (("0.0").data)) with
          status := strRun } ⟨0, []⟩ =
      ({ procInit (("a").data) (.ofList []) (.ofFloat (("0.0").data)) with
          status := strStop }, some errNoneReadlines)) ∧
    (procRefresh
      { procInit (("a").data) (.ofList []) (.ofFloat (("0.0").data)) with
          proc := some ⟨[], some 0, [("x\ny\n").data], [("e\n").data], []⟩ }
      ⟨1, [(0, true)]⟩ =
      ({ procInit (("a").data) (.ofList []) (.ofFloat (("0.0").data)) with
          status := strRun,
          proc := some ⟨[], some 0, [], [], []⟩,
          result := [("x").data, ("y").data, ("e").data] }, none)) := by
  constructor
  · rfl
  · rfl

/-!  ## C5. Start supersedes -/

/-- C5, confirmed: starting a `Process` that already has an associated
process first fully terminates the previous instance (its listener — and
with it its child — is gone from the world) before the new child is
spawned, and afterwards exactly one live child is associated; at most one
live child is ever associated. -/
theorem c5_start_supersedes (p : Proc) (w : World) (spc : SPC) (oldId : Nat)
    (hp : p.proc = some spc) (hs : spc.proc = some oldId)
    (hcmd : cmdOk p.commands = true) (hlt : oldId < w.nextId) :
    ∃ spc1 newId,
      (procStart p w).1.proc = some spc1 ∧
      spc1.proc = some newId ∧
      childAliveB (procStart p w).2.1 newId = true ∧
      listenerAlive (procStart p w).2.1 oldId = false ∧
      oldId ≠ newId ∧
      assocLiveCount (procStart p w).1 (procStart p w).2.1 = 1 ∧
      (∀ q v, assocLiveCount q v ≤ 1) := by
  obtain ⟨args, hinit⟩ := spcInit_ok_of_cmdOk p.commands hcmd
  have hne : oldId ≠ w.nextId := Nat.ne_of_lt hlt
  refine ⟨⟨args, some w.nextId, [], [], []⟩, w.nextId, ?_⟩
  have h1 : (procStart p w).1 =
      { p with proc := some (⟨args, some w.nextId, [], [], []⟩ : SPC),
               status := strRun } := by
    simp only [procStart, procKill, hp, spcKill, hs, hinit, spcStart,
      spcSpawn, spawnListener, killListener]
    split <;> rfl
  have h2 : (procStart p w).2.1 =
      (⟨w.nextId + 1, (w.nextId, true) :: (killListener w oldId).units⟩ :
        World) := by
    simp only [procStart, procKill, hp, spcKill, hs, hinit, spcStart,
      spcSpawn, spawnListener, killListener]
    split <;> rfl
  rw [h1, h2]
  refine ⟨rfl, rfl, ?_, ?_, hne, ?_, fun q v => assocLiveCount_le_one q v⟩
  · simp [childAliveB]
  · simp only [listenerAlive, List.any_cons, Bool.or_eq_false_iff]
    constructor
    · simp [Ne.symm hne]
    · have hrest := listenerAlive_killListener w oldId
      simpa [listenerAlive] using hrest
  · simp [assocLiveCount, childAliveB]

/-- C5 witness. -/
theorem c5_witness :
    ((⟨("a").data, .ofList [], .ofFloat (("0.0").data), [], strRun,
        some ⟨[], some 0, [], [], []⟩⟩ : Proc).proc =
      some ⟨[], some 0, [], [], []⟩) ∧
    ((⟨[], some 0, [], [], []⟩ : SPC).proc = some 0) ∧
    cmdOk (.ofList []) = true ∧ 0 < (1 : Nat) ∧
    (∃ spc1 newId,
      (procStart
        ⟨("a").data, .ofList [], .ofFloat (("0.0").data), [], strRun,
          some ⟨[], some 0, [], [], []⟩⟩ ⟨1, [(0, true)]⟩).1.proc = some spc1 ∧
      spc1.proc = some newId ∧
      childAliveB (procStart
        ⟨("a").data, .ofList [], .ofFloat (("0.0").data), [], strRun,
          some ⟨[], some 0, [], [], []⟩⟩ ⟨1, [(0, true)]⟩).2.1 newId = true ∧
      listenerAlive (procStart
        ⟨("a").data, .ofList [], .ofFloat (("0.0").data), [], strRun,
          some ⟨[], some 0, [], [], []⟩⟩ ⟨1, [(0, true)]⟩).2.1 0 = false ∧
      0 ≠ newId ∧
      assocLiveCount (procStart
        ⟨("a").data, .ofList [], .ofFloat (("0.0").data), [], strRun,
          some ⟨[], some 0, [], [], []⟩⟩ ⟨1, [(0, true)]⟩).1
        (procStart
        ⟨("a").data, .ofList [], .ofFloat (("0.0").data), [], strRun,
          some ⟨[], some 0, [], [], []⟩⟩ ⟨1, [(0, true)]⟩).2.1 = 1 ∧
      (∀ q v, assocLiveCount q v ≤ 1)) := by
  refine ⟨rfl, rfl, rfl, Nat.zero_lt_one, ?_⟩
  exact c5_start_supersedes _ ⟨1, [(0, true)]⟩ _ 0 rfl rfl rfl Nat.zero_lt_one

/-!  ## C6. Spawn failure handling -/

/-- C6, corrected: `start` cannot observe a spawn failure at all.  The
`Popen` runs inside the listener process (and with `shell=True` even a
missing program only makes the shell exit with an error), so for EVERY
command — including one whose program cannot be started — `start`
returns normally and unconditionally marks the `Process` as `"Run"`,
not `"Stop"`. -/
theorem c6_spawn_failure_not_surfaced (name : PyStr) (c : PyCmd)
    (d : PyDelay) (w : World)
    (hc : cmdOk c = true) (hd : pyFloatOk d = true) :
    (procStart (procInit name c d) w).2.2 = none ∧
    (procStart (procInit name c d) w).1.status = strRun := by
  obtain ⟨args, hinit⟩ := spcInit_ok_of_cmdOk c hc
  constructor <;>
    simp [procStart, procInit, hinit, spcStart, spcSpawn, spawnListener, hd]

/-- C6 counterexample: starting a process whose program does not exist
(`no_such_program_xyz`): the claim demands a surfaced error and a
`Stopped` state, but `start` reports no error and leaves the state
`"Run"`. -/
theorem c6_counterexample :
    (procStart
      (procInit (("bad").data) (.ofStr (("no_such_program_xyz").data))
        (.ofFloat (("0.0").data))) ⟨0, []⟩).2.2 = none ∧
    (procStart
      (procInit (("bad").data) (.ofStr (("no_such_program_xyz").data))
        (.ofFloat (("0.0").data))) ⟨0, []⟩).1.status = strRun ∧
    strRun ≠ strStop := by
  exact ⟨rfl, rfl, by decide⟩

/-- C6 witness. -/
theorem c6_witness :
    cmdOk (.ofStr (("no_such_program_xyz").data)) = true ∧
    pyFloatOk (.ofFloat (("0.0").data)) = true ∧
    (procStart
      (procInit (("bad").data) (.ofStr (("no_such_program_xyz").data))
        (.ofFloat (("0.0").data))) ⟨0, []⟩).2.2 = none ∧
    (procStart
      (procInit (("bad").data) (.ofStr (("no_such_program_xyz").data))
        (.ofFloat (("0.0").data))) ⟨0, []⟩).1.status = strRun := by
  refine ⟨by decide, rfl, ?_⟩
  exact c6_spawn_failure_not_surfaced _ _ _ ⟨0, []⟩ (by decide) rfl

/-!  ## C10. Post-kill disassociation -/

/-- C10, confirmed: when `SafetyProcessCall.kill` returns normally (which
it does exactly when a process is associated), the handle is
disassociated, `is_alive` is `False` in every world, and both `readlines`
variants raise the not-started `ValueError`. -/
theorem c10_post_kill (s : SPC) (w : World) (id : Nat)
    (h : s.proc = some id) :
    (spcKill s w).2.2 = none ∧
    (spcKill s w).1.proc = none ∧
    (∀ w2, spcIsAlive (spcKill s w).1 w2 = false) ∧
    (spcReadlines (spcKill s w).1).2 = .error errNotStarted ∧
    (spcReadlinesErr (spcKill s w).1).2 = .error errNotStarted := by
  simp [spcKill, h, spcIsAlive, spcReadlines, spcReadlinesErr]

/-- C10 witness. -/
theorem c10_witness :
    ((⟨[], some 0, [], [], []⟩ : SPC).proc = some 0) ∧
    (spcKill ⟨[], some 0, [], [], []⟩ ⟨1, [(0, true)]⟩).2.2 = none ∧
    (spcKill ⟨[], some 0, [], [], []⟩ ⟨1, [(0, true)]⟩).1.proc = none ∧
    (∀ w2, spcIsAlive (spcKill ⟨[], some 0, [], [], []⟩ ⟨1, [(0, true)]⟩).1 w2
      = false) ∧
    (spcReadlines (spcKill ⟨[], some 0, [], [], []⟩ ⟨1, [(0, true)]⟩).1).2 =
      .error errNotStarted ∧
    (spcReadlinesErr (spcKill ⟨[], some 0, [], [], []⟩ ⟨1, [(0, true)]⟩).1).2 =
      .error errNotStarted := by
  exact ⟨rfl, c10_post_kill _ _ 0 rfl⟩

/-!  ## C9. Bounded supervision loop -/

theorem processEntry_bound (fuel : Nat) (sched : List (List LEvent))
    (st : LState) :
    (processEntry fuel sched st).2 ≤ fuel ∧
    (processEntry fuel sched st).1.childAlive = false := by
  induction fuel generalizing sched st with
  | zero => exact ⟨Nat.le_refl 0, rfl⟩
  | succ f ih =>
    simp only [processEntry]
    rcases h : lIter ((sched.headD []).foldl lStep st) with ⟨st1, brk⟩
    cases brk with
    | true =>
      simp only [h]
      exact ⟨by omega, rfl⟩
    | false =>
      simp only [h]
      rcases h2 : processEntry f sched.tail st1 with ⟨stf, n⟩
      have hrec := ih sched.tail st1
      rw [h2] at hrec
      exact ⟨Nat.succ_le_succ hrec.1, hrec.2⟩

/-- C9, confirmed: under every schedule of environment events and from
every state, the polling loop of `process_entry` executes at most 1000
iterations, and on every exit path the child process ends up killed. -/
theorem c9_bounded_loop (sched : List (List LEvent)) (st : LState) :
    (processEntry 1000 sched st).2 ≤ 1000 ∧
    (processEntry 1000 sched st).1.childAlive = false :=
  processEntry_bound 1000 sched st

/-!  ## C8. Output accumulation -/

theorem flatQ_append (q : List (List PyStr)) (b : List PyStr) :
    flatQ (q ++ [b]) = flatQ q ++ b := by
  induction q with
  | nil => simp [flatQ]
  | cons x rest ih => simp [flatQ, ih]

theorem lStep_conserved (st : LState) (e : LEvent) (h : lConserved st) :
    lConserved (lStep st e) := by
  obtain ⟨h1, h2⟩ := h
  cases e with
  | emitOut l =>
    by_cases ha : st.childAlive = true
    · refine ⟨?_, by simpa [lStep, ha] using h2⟩
      simp only [lStep, ha, if_true]
      rw [← h1]
      simp [List.append_assoc]
    · simp only [Bool.not_eq_true] at ha
      exact ⟨by simpa [lStep, ha] using h1, by simpa [lStep, ha] using h2⟩
  | emitErr l =>
    by_cases ha : st.childAlive = true
    · refine ⟨by simpa [lStep, ha] using h1, ?_⟩
      simp only [lStep, ha, if_true]
      rw [← h2]
      simp [List.append_assoc]
    · simp only [Bool.not_eq_true] at ha
      exact ⟨by simpa [lStep, ha] using h1, by simpa [lStep, ha] using h2⟩
  | readOut =>
    rcases hp : st.pipeOut with _ | ⟨x, rest⟩
    · exact ⟨by simpa [lStep, hp] using h1, by simpa [lStep, hp] using h2⟩
    · rw [hp] at h1
      refine ⟨?_, by simpa [lStep, hp] using h2⟩
      simp only [lStep, hp]
      rw [← h1]
      simp [List.append_assoc]
  | readErr =>
    rcases hp : st.pipeErr with _ | ⟨x, rest⟩
    · exact ⟨by simpa [lStep, hp] using h1, by simpa [lStep, hp] using h2⟩
    · rw [hp] at h2
      refine ⟨by simpa [lStep, hp] using h1, ?_⟩
      simp only [lStep, hp]
      rw [← h2]
      simp [List.append_assoc]
  | childExit => exact ⟨h1, h2⟩
  | putKill => exact ⟨h1, h2⟩

theorem foldl_lStep_conserved (es : List LEvent) (st : LState)
    (h : lConserved st) : lConserved (es.foldl lStep st) := by
  induction es generalizing st with
  | nil => exact h
  | cons e rest ih => exact ih _ (lStep_conserved st e h)

theorem lDrainOut_conserved (st : LState) (h : lConserved st) :
    lConserved (lDrainOut st) := by
  obtain ⟨h1, h2⟩ := h
  unfold lDrainOut
  by_cases hbo : st.bufOut.isEmpty = true
  · simp only [hbo, if_true]
    exact ⟨h1, h2⟩
  · simp only [hbo, if_false]
    refine ⟨?_, h2⟩
    simpa [flatQ_append] using h1

theorem lDrainErr_conserved (st : LState) (h : lConserved st) :
    lConserved (lDrainErr st) := by
  obtain ⟨h1, h2⟩ := h
  unfold lDrainErr
  by_cases hbe : st.bufErr.isEmpty = true
  · simp only [hbe, if_true]
    exact ⟨h1, h2⟩
  · simp only [hbe, if_false]
    refine ⟨h1, ?_⟩
    simpa [flatQ_append] using h2

theorem lIter_conserved (st : LState) (h : lConserved st) :
    lConserved (lIter st).1 := by
  have key := lDrainErr_conserved _ (lDrainOut_conserved st h)
  unfold lIter
  simp only []
  split
  · exact key
  · split
    · exact key
    · exact key

theorem lKill_conserved (st : LState) (h : lConserved st) :
    lConserved (lKill st) := h

theorem processEntry_conserved (fuel : Nat) (sched : List (List LEvent))
    (st : LState) (h : lConserved st) :
    lConserved (processEntry fuel sched st).1 := by
  induction fuel generalizing sched st with
  | zero => exact lKill_conserved st h
  | succ f ih =>
    simp only [processEntry]
    have h0 := foldl_lStep_conserved (sched.headD []) st h
    rcases hi : lIter ((sched.headD []).foldl lStep st) with ⟨st1, brk⟩
    have h1 : lConserved st1 := by
      have := lIter_conserved _ h0
      rwa [hi] at this
    cases brk with
    | true =>
      simp only [hi]
      exact lKill_conserved st1 h1
    | false =>
      simp only [hi]
      rcases h2 : processEntry f sched.tail st1 with ⟨stf, n⟩
      have := ih sched.tail st1 h1
      rwa [h2] at this

/-- C8, amended: the listener loop never duplicates or reorders output —
under every schedule, the lines delivered to the stdout queue followed by
the lines still in the thread buffer and in the pipe are exactly the
emitted lines in order (same for stderr), so the delivered lines always
form a prefix of the emitted lines, each line at most once.  Eventual
delivery of every emitted line, however, does not hold (see the
counterexample: data still buffered when the loop observes the child
exit is discarded). -/
theorem c8_output_conservation (fuel : Nat) (sched : List (List LEvent)) :
    (flatQ (processEntry fuel sched lInit).1.qstdout ++
        (processEntry fuel sched lInit).1.bufOut ++
        (processEntry fuel sched lInit).1.pipeOut =
      (processEntry fuel sched lInit).1.emittedOut) ∧
    (flatQ (processEntry fuel sched lInit).1.qstderr ++
        (processEntry fuel sched lInit).1.bufErr ++
        (processEntry fuel sched lInit).1.pipeErr =
      (processEntry fuel sched lInit).1.emittedErr) ∧
    (∃ rest, flatQ (processEntry fuel sched lInit).1.qstdout ++ rest =
      (processEntry fuel sched lInit).1.emittedOut) := by
  have h := processEntry_conserved fuel sched lInit ⟨rfl, rfl⟩
  refine ⟨h.1, h.2, ⟨(processEntry fuel sched lInit).1.bufOut ++
    (processEntry fuel sched lInit).1.pipeOut, ?_⟩⟩
  rw [← h.1]
  simp [List.append_assoc]

/-!  ## C7. Index bounds -/

theorem pyIdx_some_of_bounds (n : Nat) (i : Int) (h : pyInBounds n i) :
    ∃ k, pyIdx n i = some k ∧ k < n := by
  unfold pyInBounds at h
  unfold pyIdx
  split_ifs with h1 h2
  · exact ⟨i.toNat, rfl, by omega⟩
  · exact ⟨((n : Int) + i).toNat, rfl, by omega⟩
  · omega

theorem pyIdx_none_of_not_bounds (n : Nat) (i : Int)
    (h : ¬ pyInBounds n i) : pyIdx n i = none := by
  unfold pyInBounds at h
  unfold pyIdx
  split_ifs with h1 h2
  · omega
  · omega
  · rfl

theorem getD_mem_of_lt (l : List Proc) (k : Nat) (hk : k < l.length) :
    l.getD k default ∈ l := by
  rw [List.getD_eq_getElem?_getD, List.getElem?_eq_getElem hk]
  exact List.getElem_mem hk

theorem entryOK_elim (p : Proc) (h : entryOK p = true) :
    ∃ spc id, p.proc = some spc ∧ spc.proc = some id ∧
      pyFloatOk p.delay = true ∧ cmdOk p.commands = true := by
  unfold entryOK at h
  rcases hp : p.proc with _ | spc <;> rw [hp] at h
  · simp at h
  · simp only [Bool.and_eq_true, Option.isSome_iff_exists] at h
    obtain ⟨⟨⟨id, hid⟩, hf⟩, hc⟩ := h
    exact ⟨spc, id, rfl, hid, hf, hc⟩

theorem procStart_entry_ok (p : Proc) (w : World) (h : entryOK p = true) :
    (procStart p w).2.2 = none := by
  obtain ⟨spc, id, hp, hs, hf, hc⟩ := entryOK_elim p h
  obtain ⟨args, hinit⟩ := spcInit_ok_of_cmdOk p.commands hc
  simp [procStart, procKill, hp, spcKill, hs, hinit, spcStart, spcSpawn,
    spawnListener, killListener, hf]

theorem procKill_entry_ok (p : Proc) (w : World) (h : entryOK p = true) :
    (procKill p w).2.2 = none := by
  obtain ⟨spc, id, hp, hs, _, _⟩ := entryOK_elim p h
  simp [procKill, hp, spcKill, hs]

theorem procRefresh_entry_ok (p : Proc) (w : World) (h : entryOK p = true) :
    (procRefresh p w).2 = none := by
  obtain ⟨spc, id, hp, hs, _, _⟩ := entryOK_elim p h
  simp only [procRefresh, hp]
  rcases hq1 : spc.qstdout with _ | ⟨m1, r1⟩ <;>
  rcases hq2 : spc.qstderr with _ | ⟨m2, r2⟩ <;>
  simp [spcReadlines, spcReadlinesErr, hs, hq1, hq2]

/-- C7, amended: Python list indexing also accepts negative indices
(addressing from the end), so on a registry of wellformed running
entries the index-addressed operations (restart, kill, refresh, delete,
get_status) succeed exactly when `-n <= i < n` and raise the
index-out-of-range error otherwise — not exactly when `0 <= i < n` as
claimed. -/
theorem c7_index_bounds (tb : List Proc) (w : World) (i : Int)
    (h : ∀ p ∈ tb, entryOK p = true) :
    ((tableRestart tb w i).2.2 =
      if pyInBounds tb.length i then none else some errIndex) ∧
    ((tableKill tb w i).2.2 =
      if pyInBounds tb.length i then none else some errIndex) ∧
    ((tableRefresh tb w i).2 =
      if pyInBounds tb.length i then none else some errIndex) ∧
    ((tableDelete tb w i).2.2 =
      if pyInBounds tb.length i then none else some errIndex) ∧
    (exceptOk (tableGetStatus tb i) =
      if pyInBounds tb.length i then true else false) := by
  by_cases hb : pyInBounds tb.length i
  · obtain ⟨k, hk, hlt⟩ := pyIdx_some_of_bounds tb.length i hb
    have hmem := getD_mem_of_lt tb k hlt
    have hok := h _ hmem
    simp only [hb, if_true]
    refine ⟨?_, ?_, ?_, ?_, ?_⟩
    · rcases hps : procStart (tb.getD k default) w with ⟨p1, w1, e⟩
      have he := procStart_entry_ok (tb.getD k default) w hok
      rw [hps] at he
      simp only [tableRestart, hk]
      rw [hps]
      exact he
    · rcases hps : procKill (tb.getD k default) w with ⟨p1, w1, e⟩
      have he := procKill_entry_ok (tb.getD k default) w hok
      rw [hps] at he
      simp only [tableKill, hk]
      rw [hps]
      exact he
    · rcases hps : procRefresh (tb.getD k default) w with ⟨p1, e⟩
      have he := procRefresh_entry_ok (tb.getD k default) w hok
      rw [hps] at he
      simp only [tableRefresh, hk]
      rw [hps]
      exact he
    · rcases hps : procKill (tb.getD k default) w with ⟨p1, w1, e⟩
      have he := procKill_entry_ok (tb.getD k default) w hok
      rw [hps] at he
      change e = none at he
      subst he
      simp only [tableDelete, hk]
      rw [hps]
    · simp only [tableGetStatus, hk, exceptOk]
  · have hn := pyIdx_none_of_not_bounds tb.length i hb
    simp [tableRestart, tableKill, tableRefresh, tableDelete, tableGetStatus,
      hn, hb, exceptOk]

/-- C7 counterexample: on a registry of size 2, `restart(-1)` is outside
`0 <= i < n` yet succeeds (it restarts the last entry), refuting
"otherwise fail with the index-out-of-range error". -/
theorem c7_counterexample :
    ¬ (0 ≤ (-1 : Int)) ∧
    (tableRestart [sampleEnt0, sampleEnt1] sampleW2 (-1)).2.2 = none := by
  exact ⟨by decide, rfl⟩

/-- C7 witness: on the sample registry of size 2, `restart(2)` raises the
index error and `restart(1)` succeeds. -/
theorem c7_witness :
    (∀ p ∈ [sampleEnt0, sampleEnt1], entryOK p = true) ∧
    (tableRestart [sampleEnt0, sampleEnt1] sampleW2 2).2.2 = some errIndex ∧
    (tableRestart [sampleEnt0, sampleEnt1] sampleW2 1).2.2 = none := by
  have hall : ∀ p ∈ [sampleEnt0, sampleEnt1], entryOK p = true := by decide
  refine ⟨hall, ?_, ?_⟩
  · have hx := (c7_index_bounds [sampleEnt0, sampleEnt1] sampleW2 2 hall).1
    rw [hx, if_neg (by decide)]
  · have hx := (c7_index_bounds [sampleEnt0, sampleEnt1] sampleW2 1 hall).1
    rw [hx, if_pos (by decide)]

/-- C8 counterexample: the child emits `L1` and exits before the reader
thread is scheduled; the loop observes the exit, breaks, and kills —
`L1` never reaches the stdout queue (and the listener is finished, so no
later refresh can ever deliver it), refuting loss-free eventual
accumulation. -/
theorem c8_counterexample :
    (processEntry 1000 [[LEvent.emitOut (("L1\n").data), LEvent.childExit]]
      lInit).1.qstdout = [] ∧
    (processEntry 1000 [[LEvent.emitOut (("L1\n").data), LEvent.childExit]]
      lInit).1.emittedOut = [("L1\n").data] ∧
    (processEntry 1000 [[LEvent.emitOut (("L1\n").data), LEvent.childExit]]
      lInit).1.childAlive = false := by
  exact ⟨rfl, rfl, rfl⟩

/-!  ## String lemmas for the config format -/

theorem pySplit1_cons_ne (s0 x : Char) (l acc : List Char) (hx : x ≠ s0) :
    pySplit1 s0 (x :: l) acc = pySplit1 s0 l (x :: acc) := by
  simp [pySplit1, hx]

theorem pySplit1_cons_sep (s0 : Char) (l acc : List Char) :
    pySplit1 s0 (s0 :: l) acc = acc.reverse :: pySplit1 s0 l [] := by
  simp [pySplit1]

theorem pySplit1_no_sep (s0 : Char) (b : List Char) (acc : List Char)
    (hb : ∀ c ∈ b, c ≠ s0) :
    pySplit1 s0 b acc = [acc.reverse ++ b] := by
  induction b generalizing acc with
  | nil => simp [pySplit1]
  | cons x rest ih =>
    rw [pySplit1_cons_ne s0 x rest acc (hb x (List.mem_cons_self x rest))]
    rw [ih _ (fun c hc => hb c (List.mem_cons_of_mem x hc))]
    simp

theorem pySplit1_sep (s0 : Char) (b rest acc : List Char)
    (hb : ∀ c ∈ b, c ≠ s0) :
    pySplit1 s0 (b ++ s0 :: rest) acc =
      (acc.reverse ++ b) :: pySplit1 s0 rest [] := by
  induction b generalizing acc with
  | nil =>
    simpa using pySplit1_cons_sep s0 rest acc
  | cons x b2 ih =>
    rw [List.cons_append]
    rw [pySplit1_cons_ne s0 x _ acc (hb x (List.mem_cons_self x b2))]
    rw [ih _ (fun c hc => hb c (List.mem_cons_of_mem x hc))]
    simp

theorem pySplitNl_joinNl (bs : List PyStr) (hne : bs ≠ [])
    (h : ∀ b ∈ bs, ∀ c ∈ b, c ≠ '\n') :
    pySplitNl (joinNl bs) = bs := by
  induction bs with
  | nil => exact absurd rfl hne
  | cons b rest ih =>
    cases rest with
    | nil =>
      simp only [joinNl, pySplitNl]
      rw [pySplit1_no_sep '\n' b [] (h b (List.mem_cons_self b []))]
      simp
    | cons b2 rest2 =>
      simp only [joinNl, pySplitNl]
      rw [pySplit1_sep '\n' b _ [] (h b (List.mem_cons_self b _))]
      simp only [List.reverse_nil, List.nil_append]
      have hrest := ih (by simp)
        (fun x hx c hc => h x (List.mem_cons_of_mem b hx) c hc)
      simp only [pySplitNl] at hrest
      rw [hrest]

theorem pySplit3_cons_ne (x : Char) (l acc : List Char) (hx : x ≠ ':') :
    pySplit3 ':' ':' ':' (x :: l) acc = pySplit3 ':' ':' ':' l (x :: acc) := by
  rcases l with _ | ⟨y, _ | ⟨z, t⟩⟩
  · simp [pySplit3]
  · simp [pySplit3]
  · have hcond : ¬(x = ':' ∧ y = ':' ∧ z = ':') := fun hc => hx hc.1
    simp only [pySplit3, if_neg hcond]

theorem pySplit3_cons_sep (rest acc : List Char) :
    pySplit3 ':' ':' ':' (':' :: ':' :: ':' :: rest) acc =
      acc.reverse :: pySplit3 ':' ':' ':' rest [] := by
  simp [pySplit3]

theorem pySplitCols_no_sep (b : List Char) (acc : List Char)
    (hb : ∀ c ∈ b, c ≠ ':') :
    pySplit3 ':' ':' ':' b acc = [acc.reverse ++ b] := by
  induction b generalizing acc with
  | nil => simp [pySplit3]
  | cons x b2 ih =>
    rw [pySplit3_cons_ne x b2 acc (hb x (List.mem_cons_self x b2))]
    rw [ih _ (fun c hc => hb c (List.mem_cons_of_mem x hc))]
    simp

theorem pySplitCols_sep (b rest acc : List Char)
    (hb : ∀ c ∈ b, c ≠ ':') :
    pySplit3 ':' ':' ':' (b ++ ':' :: ':' :: ':' :: rest) acc =
      (acc.reverse ++ b) :: pySplit3 ':' ':' ':' rest [] := by
  induction b generalizing acc with
  | nil => simpa using pySplit3_cons_sep rest acc
  | cons x b2 ih =>
    rw [List.cons_append]
    rw [pySplit3_cons_ne x _ acc (hb x (List.mem_cons_self x b2))]
    rw [ih _ (fun c hc => hb c (List.mem_cons_of_mem x hc))]
    simp

theorem pySplitCols_three (n c d : PyStr)
    (hn : ∀ x ∈ n, x ≠ ':') (hc : ∀ x ∈ c, x ≠ ':')
    (hd : ∀ x ∈ d, x ≠ ':') :
    pySplitCols (n ++ ':' :: ':' :: ':' :: c ++ ':' :: ':' :: ':' :: d) =
      [n, c, d] := by
  unfold pySplitCols
  have hshape : n ++ ':' :: ':' :: ':' :: c ++ ':' :: ':' :: ':' :: d =
      n ++ (':' :: ':' :: ':' :: (c ++ (':' :: ':' :: ':' :: d))) := by
    simp [List.append_assoc]
  rw [hshape]
  rw [pySplitCols_sep n _ [] hn]
  rw [pySplitCols_sep c _ [] hc]
  rw [pySplitCols_no_sep d [] hd]
  simp

theorem dropWhile_head_false (p : Char → Bool) :
    ∀ (l : List Char), (∀ c, l.head? = some c → p c = false) →
      l.dropWhile p = l
  | [], _ => rfl
  | c :: rest, h => by
    have hc := h c rfl
    simp [List.dropWhile_cons, hc]

theorem pyStrip_body (x : PyStr) (hx : x ≠ [])
    (hh : headNotSpace x = true) (hl : lastNotSpace x = true) :
    pyStrip (x ++ ['\n']) = x := by
  unfold pyStrip
  have h1 : (x ++ ['\n']).dropWhile pyIsSpace = x ++ ['\n'] := by
    apply dropWhile_head_false
    intro c hc
    rcases x with _ | ⟨a, t⟩
    · exact absurd rfl hx
    · simp only [List.cons_append, List.head?_cons, Option.some.injEq] at hc
      subst hc
      simpa [headNotSpace] using hh
  rw [h1, List.reverse_append]
  simp only [List.reverse_cons, List.reverse_nil, List.nil_append,
    List.singleton_append]
  rw [List.dropWhile_cons]
  have hnl : pyIsSpace '\n' = true := by decide
  rw [if_pos hnl]
  have h3 : x.reverse.dropWhile pyIsSpace = x.reverse := by
    apply dropWhile_head_false
    intro c hc
    unfold lastNotSpace at hl
    rcases hr : x.reverse with _ | ⟨a, t⟩
    · rw [hr] at hc; simp at hc
    · rw [hr] at hc hl
      simp only [List.head?_cons, Option.some.injEq] at hc
      subst hc
      simpa [headNotSpace] using hl
  rw [h3, List.reverse_reverse]

/-!  ## Saved-config structure lemmas -/

theorem pyFloatParses_ne_nil (s : PyStr) (h : pyFloatParses s = true) :
    s ≠ [] := by
  intro hs
  rw [hs] at h
  exact absurd h (by decide)

theorem fieldOK_elim (s : PyStr) (h : fieldOK s = true) :
    ∀ c ∈ s, c ≠ ':' ∧ c ≠ '\n' := by
  intro c hcmem
  have h2 := List.all_eq_true.mp h c hcmem
  simp only [Bool.and_eq_true, bne_iff_ne, ne_eq] at h2
  exact h2

theorem entRT_elim (p : Proc) (h : entRT p = true) :
    ∃ c, p.commands = .ofStr c ∧ fieldOK c = true ∧
      cmdOk (.ofStr c) = true ∧ fieldOK p.name = true ∧
      fieldOK (pyStrOfDelay p.delay) = true ∧
      pyFloatParses (pyStrOfDelay p.delay) = true := by
  unfold entRT at h
  rcases hc : p.commands with c | ll <;> rw [hc] at h
  · simp only [Bool.and_eq_true] at h
    exact ⟨c, rfl, h.1.1.1.1, h.1.1.1.2, h.1.1.2, h.1.2, h.2⟩
  · simp at h

theorem saveBody_ne_nil (p : Proc) : saveBody p ≠ [] := by
  unfold saveBody
  simp

theorem saveBody_cols (p : Proc) (h : entRT p = true) :
    pySplitCols (saveBody p) =
      [p.name, pyStrOfCmd p.commands, pyStrOfDelay p.delay] := by
  obtain ⟨c, hc, hfc, _, hfn, hfd, _⟩ := entRT_elim p h
  unfold saveBody
  refine pySplitCols_three _ _ _ ?_ ?_ ?_
  · intro x hx
    exact (fieldOK_elim _ hfn x hx).1
  · intro x hx
    rw [hc] at hx
    exact (fieldOK_elim c hfc x hx).1
  · intro x hx
    exact (fieldOK_elim _ hfd x hx).1

theorem saveBody_no_nl (p : Proc) (h : entRT p = true) :
    ∀ ch ∈ saveBody p, ch ≠ '\n' := by
  obtain ⟨c, hc, hfc, _, hfn, hfd, _⟩ := entRT_elim p h
  intro ch hch
  unfold saveBody at hch
  rcases List.mem_append.mp hch with h1 | h1
  · rcases List.mem_append.mp h1 with h2 | h2
    · exact (fieldOK_elim _ hfn ch h2).2
    · rcases List.mem_cons.mp h2 with rfl | h3
      · decide
      rcases List.mem_cons.mp h3 with rfl | h4
      · decide
      rcases List.mem_cons.mp h4 with rfl | h5
      · decide
      rw [hc] at h5
      exact (fieldOK_elim c hfc ch h5).2
  · rcases List.mem_cons.mp h1 with rfl | h3
    · decide
    rcases List.mem_cons.mp h3 with rfl | h4
    · decide
    rcases List.mem_cons.mp h4 with rfl | h5
    · decide
    exact (fieldOK_elim _ hfd ch h5).2

theorem headNotSpace_append (b X : PyStr) (hb : b ≠ []) :
    headNotSpace (b ++ X) = headNotSpace b := by
  rcases b with _ | ⟨a, t⟩
  · exact absurd rfl hb
  · rfl

theorem lastNotSpace_append (X Y : PyStr) (hy : Y ≠ []) :
    lastNotSpace (X ++ Y) = lastNotSpace Y := by
  unfold lastNotSpace
  rw [List.reverse_append]
  exact headNotSpace_append Y.reverse X.reverse (by simpa using hy)

theorem headNotSpace_saveBody (p : Proc) (h : headNotSpace p.name = true) :
    headNotSpace (saveBody p) = true := by
  unfold saveBody
  rcases hn : p.name with _ | ⟨a, t⟩
  · rfl
  · rw [hn] at h
    rw [headNotSpace_append _ _ (by simp)]
    rw [headNotSpace_append _ _ (by simp)]
    exact h

theorem lastNotSpace_saveBody (p : Proc)
    (hne : pyStrOfDelay p.delay ≠ [])
    (h : lastNotSpace (pyStrOfDelay p.delay) = true) :
    lastNotSpace (saveBody p) = true := by
  unfold saveBody
  have hshape :
      p.name ++ ':' :: ':' :: ':' :: pyStrOfCmd p.commands ++
        ':' :: ':' :: ':' :: pyStrOfDelay p.delay =
      (p.name ++ ':' :: ':' :: ':' :: pyStrOfCmd p.commands ++
        [':', ':', ':']) ++ pyStrOfDelay p.delay := by
    simp [List.append_assoc]
  rw [hshape, lastNotSpace_append _ _ hne]
  exact h

theorem joinNl_ne_nil : ∀ (bs : List PyStr), bs ≠ [] →
    (∀ b ∈ bs, b ≠ []) → joinNl bs ≠ []
  | [], h, _ => absurd rfl h
  | [b], _, h => by simpa [joinNl] using h b (List.mem_cons_self b [])
  | _ :: _ :: _, _, _ => by simp [joinNl]

theorem headNotSpace_joinNl (b : PyStr) (rest : List PyStr)
    (hb : b ≠ []) (h : headNotSpace b = true) :
    headNotSpace (joinNl (b :: rest)) = true := by
  cases rest with
  | nil => simpa [joinNl] using h
  | cons b2 rest2 =>
    simp only [joinNl]
    rw [headNotSpace_append b _ hb]
    exact h

theorem lastNotSpace_joinNl : ∀ (bs : List PyStr) (blast : PyStr),
    bs.getLast? = some blast → blast ≠ [] → (∀ b ∈ bs, b ≠ []) →
    lastNotSpace blast = true → lastNotSpace (joinNl bs) = true
  | [], blast, h, _, _, _ => by simp at h
  | [b], blast, h, hbne, _, hl => by
    simp only [List.getLast?_singleton, Option.some.injEq] at h
    subst h
    simpa [joinNl] using hl
  | b :: b2 :: rest, blast, h, hbne, hall, hl => by
    have h2 : (b2 :: rest).getLast? = some blast := by
      rw [List.getLast?_cons_cons] at h
      exact h
    have hjne : joinNl (b2 :: rest) ≠ [] :=
      joinNl_ne_nil _ (by simp)
        (fun x hx => hall x (List.mem_cons_of_mem b hx))
    have hrec := lastNotSpace_joinNl (b2 :: rest) blast h2 hbne
      (fun x hx => hall x (List.mem_cons_of_mem b hx)) hl
    simp only [joinNl]
    have hshape : b ++ '\n' :: joinNl (b2 :: rest) =
        b ++ (['\n'] ++ joinNl (b2 :: rest)) := by simp
    rw [hshape, lastNotSpace_append _ _ (by simp)]
    rw [lastNotSpace_append _ _ hjne]
    exact hrec

theorem saveLine_eq (p : Proc) : saveLine p = saveBody p ++ ['\n'] := by
  unfold saveLine saveBody
  simp [List.append_assoc]

theorem saveConfig_eq_joinNl : ∀ (l : List Proc), l ≠ [] →
    saveConfig l = joinNl (l.map saveBody) ++ ['\n']
  | [], h => absurd rfl h
  | [p], _ => by simp [saveConfig, saveLine_eq, joinNl]
  | p :: q :: rest, _ => by
    have ih := saveConfig_eq_joinNl (q :: rest) (by simp)
    show saveLine p ++ saveConfig (q :: rest) = _
    rw [ih, saveLine_eq]
    simp only [List.map_cons, joinNl]
    simp [List.append_assoc]

theorem strip_saveConfig (l : List Proc) (hne : l ≠ [])
    (hall : ∀ p ∈ l, entRT p = true)
    (hfirst : ∀ p, l.head? = some p → headNotSpace p.name = true)
    (hlast : ∀ p, l.getLast? = some p →
      lastNotSpace (pyStrOfDelay p.delay) = true) :
    pySplitNl (pyStrip (saveConfig l)) = l.map saveBody := by
  rcases l with _ | ⟨p, rest⟩
  · exact absurd rfl hne
  have hbodies_ne : ∀ b ∈ (p :: rest).map saveBody, b ≠ [] := by
    intro b hb
    obtain ⟨q, _, rfl⟩ := List.mem_map.mp hb
    exact saveBody_ne_nil q
  rw [saveConfig_eq_joinNl _ (by simp)]
  rw [pyStrip_body _ (joinNl_ne_nil _ (by simp) hbodies_ne) ?hh ?hl]
  case hh =>
    rw [List.map_cons]
    exact headNotSpace_joinNl _ _ (saveBody_ne_nil p)
      (headNotSpace_saveBody p (hfirst p rfl))
  case hl =>
    rcases hq : (p :: rest).getLast? with _ | q
    · simp at hq
    have hqmem : q ∈ p :: rest := by
      obtain ⟨hne2, heq⟩ :=
        List.mem_getLast?_eq_getLast (l := p :: rest) (x := q)
          (by rw [hq]; rfl)
      rw [heq]
      exact List.getLast_mem hne2
    have hqlast : ((p :: rest).map saveBody).getLast? = some (saveBody q) := by
      rw [List.getLast?_map, hq]
      rfl
    refine lastNotSpace_joinNl _ (saveBody q) hqlast (saveBody_ne_nil q)
      hbodies_ne ?_
    refine lastNotSpace_saveBody q ?_ (hlast q hq)
    obtain ⟨c, _, _, _, _, _, hp⟩ := entRT_elim q (hall q hqmem)
    exact pyFloatParses_ne_nil _ hp
  apply pySplitNl_joinNl _ (by simp)
  intro b hb ch hch
  obtain ⟨q, hq, rfl⟩ := List.mem_map.mp hb
  exact saveBody_no_nl q (hall q hq) ch hch

/-!  ## Load-loop lemmas -/

theorem spcInit_ofStr (c : PyStr) (h : cmdOk (.ofStr c) = true) :
    spcInit (.ofStr c) = .ok ⟨shlexArgsD c, none, [], [], []⟩ := by
  simp only [cmdOk] at h
  cases hs : shlexSplit c with
  | ok a => simp [spcInit, shlexArgsD, hs, Except.map]
  | error e => rw [hs] at h; simp at h

theorem tableAdd_ok (tb : List Proc) (w : World) (n c d : PyStr)
    (hc : cmdOk (.ofStr c) = true) (hd : pyFloatParses d = true) :
    tableAdd tb w n (.ofStr c) (.ofStr d) =
      (tb ++ [⟨n, .ofStr c, .ofStr d, [], strRun,
        some ⟨shlexArgsD c, some w.nextId, [], [], []⟩⟩],
       ⟨w.nextId + 1, (w.nextId, true) :: w.units⟩, none) := by
  simp [tableAdd, procStart, procInit, spcInit_ofStr c hc, spcStart,
    spcSpawn, spawnListener, pyFloatOk, hd]

theorem lineOK_elim (line : PyStr) (h : lineOK line = true) :
    ∃ n c d, pySplitCols line = [n, c, d] ∧ cmdOk (.ofStr c) = true ∧
      pyFloatParses d = true := by
  unfold lineOK at h
  rcases hs : pySplitCols line with _ | ⟨n, t1⟩
  · rw [hs] at h; simp at h
  rcases t1 with _ | ⟨c, t2⟩
  · rw [hs] at h; simp at h
  rcases t2 with _ | ⟨d, t3⟩
  · rw [hs] at h; simp at h
  rcases t3 with _ | ⟨e, t4⟩
  · rw [hs] at h
    simp only [Bool.and_eq_true] at h
    exact ⟨n, c, d, rfl, h.1, h.2⟩
  · rw [hs] at h; simp at h

theorem mkLoaded_eq (id : Nat) (line n c d : PyStr)
    (hs : pySplitCols line = [n, c, d]) :
    mkLoaded id line = ⟨n, .ofStr c, .ofStr d, [], strRun,
      some ⟨shlexArgsD c, some id, [], [], []⟩⟩ := by
  unfold mkLoaded
  rw [hs]

theorem loadLoop_all_ok : ∀ (lines : List PyStr) (tb : List Proc)
    (w : World), (∀ line ∈ lines, lineOK line = true) →
    ∃ w2, loadLoop lines tb w = (tb ++ buildEntries w.nextId lines, w2, none)
  | [], tb, w, _ => ⟨w, by simp [loadLoop, buildEntries]⟩
  | line :: rest, tb, w, h => by
    obtain ⟨n, c, d, hs, hc, hd⟩ :=
      lineOK_elim line (h line (List.mem_cons_self _ _))
    obtain ⟨w2, hrec⟩ := loadLoop_all_ok rest
      (tb ++ [mkLoaded w.nextId line])
      ⟨w.nextId + 1, (w.nextId, true) :: w.units⟩
      (fun x hx => h x (List.mem_cons_of_mem _ hx))
    refine ⟨w2, ?_⟩
    simp only [loadLoop, hs]
    rw [tableAdd_ok tb w n c d hc hd]
    rw [mkLoaded_eq w.nextId line n c d hs] at hrec
    simp only [buildEntries] at hrec ⊢
    rw [mkLoaded_eq w.nextId line n c d hs]
    rw [hrec]
    simp [List.append_assoc]

theorem loadLoop_partial : ∀ (pre : List PyStr) (bad : PyStr)
    (post : List PyStr) (tb : List Proc) (w : World),
    (∀ line ∈ pre, lineOK line = true) →
    (pySplitCols bad).length ≠ 3 →
    ∃ w2, loadLoop (pre ++ bad :: post) tb w =
      (tb ++ buildEntries w.nextId pre, w2, some errUnpack)
  | [], bad, post, tb, w, _, hbad => by
    refine ⟨w, ?_⟩
    rcases hs : pySplitCols bad with _ | ⟨n, t1⟩
    · simp [loadLoop, hs, buildEntries]
    rcases t1 with _ | ⟨c, t2⟩
    · simp [loadLoop, hs, buildEntries]
    rcases t2 with _ | ⟨d, t3⟩
    · simp [loadLoop, hs, buildEntries]
    rcases t3 with _ | ⟨e, t4⟩
    · rw [hs] at hbad; simp at hbad
    · simp [loadLoop, hs, buildEntries]
  | line :: pre2, bad, post, tb, w, h, hbad => by
    obtain ⟨n, c, d, hs, hc, hd⟩ :=
      lineOK_elim line (h line (List.mem_cons_self _ _))
    obtain ⟨w2, hrec⟩ := loadLoop_partial pre2 bad post
      (tb ++ [mkLoaded w.nextId line])
      ⟨w.nextId + 1, (w.nextId, true) :: w.units⟩
      (fun x hx => h x (List.mem_cons_of_mem _ hx)) hbad
    refine ⟨w2, ?_⟩
    rw [List.cons_append]
    simp only [loadLoop, hs]
    rw [tableAdd_ok tb w n c d hc hd]
    rw [mkLoaded_eq w.nextId line n c d hs] at hrec
    simp only [buildEntries] at hrec ⊢
    rw [mkLoaded_eq w.nextId line n c d hs]
    rw [hrec]
    simp [List.append_assoc]

theorem buildEntries_fields : ∀ (l : List Proc) (id : Nat),
    (∀ p ∈ l, entRT p = true) →
    (buildEntries id (l.map saveBody)).map Proc.name = l.map Proc.name ∧
    (buildEntries id (l.map saveBody)).map Proc.commands =
      l.map Proc.commands ∧
    (buildEntries id (l.map saveBody)).map Proc.delay =
      l.map (fun p => PyDelay.ofStr (pyStrOfDelay p.delay))
  | [], _, _ => ⟨rfl, rfl, rfl⟩
  | p :: rest, id, h => by
    obtain ⟨c, hc, _, _, _, _, _⟩ :=
      entRT_elim p (h p (List.mem_cons_self _ _))
    have hcols := saveBody_cols p (h p (List.mem_cons_self _ _))
    obtain ⟨h1, h2, h3⟩ := buildEntries_fields rest (id + 1)
      (fun q hq => h q (List.mem_cons_of_mem _ hq))
    simp only [List.map_cons, buildEntries]
    rw [mkLoaded_eq id (saveBody p) _ _ _ hcols]
    refine ⟨?_, ?_, ?_⟩
    · simp only [List.map_cons, h1]
    · simp only [List.map_cons, h2, hc, pyStrOfCmd]
    · simp only [List.map_cons, h3]

/-!  ## C3. Persistence round-trip -/

/-- C3, amended: the round trip holds only under side conditions.  For a
nonempty registry whose entries all have STRING command specifications,
whose saved fields are free of colons and newlines and load back cleanly,
whose first name does not start with whitespace and whose last delay
string does not end with whitespace, saving and loading into an empty
registry succeeds and reproduces the same names, the same command
strings and each delay as its string representation, in the same order.
(A list-valued command breaks the round trip: see the counterexample.) -/
theorem c3_roundtrip (l : List Proc) (w : World) (hne : l ≠ [])
    (hall : ∀ p ∈ l, entRT p = true)
    (hfirst : ∀ p, l.head? = some p → headNotSpace p.name = true)
    (hlast : ∀ p, l.getLast? = some p →
      lastNotSpace (pyStrOfDelay p.delay) = true) :
    (loadConfig (saveConfig l) [] w).2.2 = none ∧
    (loadConfig (saveConfig l) [] w).1.map Proc.name = l.map Proc.name ∧
    (loadConfig (saveConfig l) [] w).1.map Proc.commands =
      l.map Proc.commands ∧
    (loadConfig (saveConfig l) [] w).1.map Proc.delay =
      l.map (fun p => PyDelay.ofStr (pyStrOfDelay p.delay)) := by
  have hsplit := strip_saveConfig l hne hall hfirst hlast
  have hlines : ∀ line ∈ l.map saveBody, lineOK line = true := by
    intro line hline
    obtain ⟨q, hq, rfl⟩ := List.mem_map.mp hline
    obtain ⟨c, hcq, _, hcmd, _, _, hpar⟩ := entRT_elim q (hall q hq)
    unfold lineOK
    rw [saveBody_cols q (hall q hq)]
    rw [hcq]
    simp [pyStrOfCmd, hcmd, hpar]
  obtain ⟨w2, hload⟩ := loadLoop_all_ok (l.map saveBody) [] w hlines
  have hcfg : loadConfig (saveConfig l) [] w =
      loadLoop (pySplitNl (pyStrip (saveConfig l))) [] w := rfl
  rw [hcfg, hsplit, hload]
  obtain ⟨h1, h2, h3⟩ := buildEntries_fields l w.nextId hall
  exact ⟨rfl, by simpa using h1, by simpa using h2, by simpa using h3⟩

/-- C3 counterexample: an entry whose command specification is the LIST
`["echo", "hi"]` is serialized as its Python repr and reloads as the
plain STRING `"['echo', 'hi']"` — the command specifications differ
after one round trip, refuting the unconditional claim. -/
theorem c3_counterexample :
    ((loadConfig
        (saveConfig [⟨("a").data, .ofList [("echo").data, ("hi").data],
          .ofFloat (("0.0").data), [], strStop, none⟩]) [] ⟨0, []⟩).1.map
      Proc.commands =
      [.ofStr (("['echo', 'hi']").data)]) ∧
    PyCmd.ofStr (("['echo', 'hi']").data) ≠
      PyCmd.ofList [("echo").data, ("hi").data] := by
  exact ⟨rfl, by decide⟩

/-- C3 witness. -/
theorem c3_witness :
    (([⟨("a").data, .ofStr (("echo hi").data), .ofFloat (("0.5").data),
        [], strStop, none⟩] : List Proc) ≠ []) ∧
    (∀ p ∈ ([⟨("a").data, .ofStr (("echo hi").data),
        .ofFloat (("0.5").data), [], strStop, none⟩] : List Proc),
      entRT p = true) ∧
    ((loadConfig (saveConfig [⟨("a").data, .ofStr (("echo hi").data),
        .ofFloat (("0.5").data), [], strStop, none⟩]) [] ⟨0, []⟩).2.2 =
      none) ∧
    ((loadConfig (saveConfig [⟨("a").data, .ofStr (("echo hi").data),
        .ofFloat (("0.5").data), [], strStop, none⟩]) [] ⟨0, []⟩).1.map
      Proc.name = [("a").data]) ∧
    ((loadConfig (saveConfig [⟨("a").data, .ofStr (("echo hi").data),
        .ofFloat (("0.5").data), [], strStop, none⟩]) [] ⟨0, []⟩).1.map
      Proc.commands = [.ofStr (("echo hi").data)]) := by
  have hres := c3_roundtrip
    [⟨("a").data, .ofStr (("echo hi").data), .ofFloat (("0.5").data),
      [], strStop, none⟩] ⟨0, []⟩ (by simp) (by decide)
    (by intro p hp; cases hp; decide) (by intro p hp; cases hp; decide)
  refine ⟨by simp, by decide, hres.1, ?_, ?_⟩
  · rw [hres.2.1]; rfl
  · rw [hres.2.2.1]; rfl

/-!  ## C4. Load atomicity on malformed config -/

/-- C4, amended: a malformed line does surface the parse `ValueError` and
aborts the REST of the load, but the load is not atomic: the entries
from the lines before the first malformed line have already been added
and remain in the registry (a partial load).  Loading config text whose
stripped newline-split lines are `pre ++ bad :: post`, with every line of
`pre` wellformed and `bad` not splitting into exactly three fields,
into an empty registry yields exactly the entries of `pre`. -/
theorem c4_partial_load (cfg : PyStr) (w : World) (pre : List PyStr)
    (bad : PyStr) (post : List PyStr)
    (hdecomp : pySplitNl (pyStrip cfg) = pre ++ bad :: post)
    (hpre : ∀ line ∈ pre, lineOK line = true)
    (hbad : (pySplitCols bad).length ≠ 3) :
    ∃ w2, loadConfig cfg [] w =
      (buildEntries w.nextId pre, w2, some errUnpack) := by
  have hcfg : loadConfig cfg [] w =
      loadLoop (pySplitNl (pyStrip cfg)) [] w := rfl
  rw [hcfg, hdecomp]
  obtain ⟨w2, hw⟩ := loadLoop_partial pre bad post [] w hpre hbad
  exact ⟨w2, by simpa using hw⟩

/-- C4 counterexample: loading `"a:::b:::0\nbadline"` raises the parse
error, but the entry from the first (wellformed) line HAS been added —
the claim that no entry from the config text is added is false. -/
theorem c4_counterexample :
    ((pySplitCols (("badline").data)).length ≠ 3) ∧
    ((loadConfig (("a:::b:::0\nbadline").data) [] ⟨0, []⟩).2.2 =
      some errUnpack) ∧
    ((loadConfig (("a:::b:::0\nbadline").data) [] ⟨0, []⟩).1.map
      Proc.name = [("a").data]) := by
  exact ⟨by decide, rfl, rfl⟩

/-- C4 witness. -/
theorem c4_witness :
    (pySplitNl (pyStrip (("a:::b:::0\nbadline").data)) =
      [("a:::b:::0").data, ("badline").data]) ∧
    (∀ line ∈ [("a:::b:::0").data], lineOK line = true) ∧
    ((pySplitCols (("badline").data)).length ≠ 3) ∧
    (∃ w2, loadConfig (("a:::b:::0\nbadline").data) [] ⟨0, []⟩ =
      (buildEntries 0 [("a:::b:::0").data], w2, some errUnpack)) := by
  refine ⟨by decide, by decide, by decide, ?_⟩
  exact c4_partial_load (("a:::b:::0\nbadline").data) ⟨0, []⟩
    [("a:::b:::0").data] (("badline").data) [] (by decide) (by decide)
    (by decide)

end ProcessWatch
